import Mathlib

/-!  Formal model of cc-switcher (src/main.go): configuration store,
environment resolver and launcher.  Machine-level effects (the disk,
the printed lines, the spawned child process) are made explicit:
the disk is a small state record, printing accumulates a list of
output events, and the child process is an oracle deciding whether a
concrete launch succeeds.  -/

namespace CcSwitcher

/-- Go `unicode.IsSpace`: the White_Space code points, exactly the
separator set used by `strings.Fields` (src/main.go line 126). -/
def isGoSpace (c : Char) : Bool :=
  let n := c.toNat
  (decide (0x09 ≤ n) && decide (n ≤ 0x0D)) || (n == 0x20) || (n == 0x85) ||
  (n == 0xA0) || (n == 0x1680) ||
  (decide (0x2000 ≤ n) && decide (n ≤ 0x200A)) || (n == 0x2028) ||
  (n == 0x2029) || (n == 0x202F) || (n == 0x205F) || (n == 0x3000)

/-- Core of Go `strings.Fields`, generic in the separator predicate:
walks the characters once, collecting the current token (reversed) in
`cur` and emitting it when a separator or the end is reached. -/
def fieldsAux (p : Char → Bool) : List Char → List Char → List (List Char)
  | cur, [] => if cur.isEmpty then [] else [cur.reverse]
  | cur, c :: cs =>
    if p c then
      if cur.isEmpty then fieldsAux p [] cs
      else cur.reverse :: fieldsAux p [] cs
    else fieldsAux p (c :: cur) cs

def goFieldsList (p : Char → Bool) (s : List Char) : List (List Char) :=
  fieldsAux p [] s

/-- Model of `strings.Fields(s)` as called at src/main.go:126. -/
def goFields (s : String) : List String :=
  (goFieldsList isGoSpace s.data).map List.asString

/-- Reference splitter: cut at every single character satisfying `p`,
keeping empty pieces.  Discarding the empty pieces of this split is
the plain reading of "split on runs of whitespace"; the launcher
claims relate `goFieldsList` to it. -/
def splitAtP (p : Char → Bool) : List Char → List (List Char)
  | [] => [[]]
  | c :: cs =>
    if p c then [] :: splitAtP p cs
    else
      match splitAtP p cs with
      | [] => [[c]]
      | t :: ts => (c :: t) :: ts

/-- Type `Environment` (src/main.go:15-18).  Go's `map[string]string` is an
association list with pairwise-distinct keys; a nil map and an empty
map both have length 0 and are both `[]` here (the launcher only
observes the map through `len` and iteration, which cannot tell them
apart). -/
structure Environment where
  target : String
  environment : List (String × String)
deriving Repr, DecidableEq

/-- Type `Config` (src/main.go:21-23).  `none` models a nil Go map (the
`environments` section absent or null), `some l` a non-nil map with
entries `l`. -/
structure Config where
  environments : Option (List (String × Environment))
deriving Repr, DecidableEq

/-- YAML documents, to the depth the config shape inspects them. -/
inductive Yaml where
  | null : Yaml
  | str : String → Yaml
  | seq : List Yaml → Yaml
  | map : List (String × Yaml) → Yaml

/-- Decoding of the `target` field of an environment record: a missing
field keeps the zero value `""`; a non-string value is a type error
(yaml.v3 `Unmarshal` semantics for a `string` struct field). -/
def decodeTarget : Option Yaml → Except String String
  | none => .ok ""
  | some (Yaml.str s) => .ok s
  | some _ => .error "cannot unmarshal into string"

/-- Decoding of a `map[string]string` value: every entry must be a
string, mapping keys must be distinct (yaml.v3 rejects duplicate
keys), entries are kept in document order. -/
def decodeStrEntries : List (String × Yaml) → Except String (List (String × String))
  | [] => .ok []
  | (k, Yaml.str v) :: rest =>
    match decodeStrEntries rest with
    | .error e => .error e
    | .ok r => .ok ((k, v) :: r)
  | (_, _) :: _ => .error "cannot unmarshal into string"

/-- Decoding of the `environment` field: missing field and explicit
null both leave the nil map (length 0, modelled `[]`). -/
def decodeVars : Option Yaml → Except String (List (String × String))
  | none => .ok []
  | some Yaml.null => .ok []
  | some (Yaml.map ventries) =>
    if (ventries.map Prod.fst).Nodup then decodeStrEntries ventries
    else .error "mapping key already defined"
  | some _ => .error "cannot unmarshal into map"

/-- Decoding of one environment record (yaml.v3 `Unmarshal` into the
`Environment` struct of src/main.go:15-18): unknown keys are ignored,
a null node yields the zero value. -/
def decodeEnvironment : Yaml → Except String Environment
  | Yaml.null => .ok ⟨"", []⟩
  | Yaml.map fields =>
    if (fields.map Prod.fst).Nodup then
      match decodeTarget (fields.lookup "target"),
            decodeVars (fields.lookup "environment") with
      | .ok t, .ok vs => .ok ⟨t, vs⟩
      | .error e, _ => .error e
      | .ok _, .error e => .error e
    else .error "mapping key already defined"
  | _ => .error "cannot unmarshal into Environment"

/-- Decoding of the entries of the `environments` mapping, in document
order. -/
def decodeEnvEntries : List (String × Yaml) → Except String (List (String × Environment))
  | [] => .ok []
  | (k, v) :: rest =>
    match decodeEnvironment v with
    | .error e => .error e
    | .ok env =>
      match decodeEnvEntries rest with
      | .error e => .error e
      | .ok r => .ok ((k, env) :: r)

/-- yaml.v3 `Unmarshal` into `Config` (src/main.go:70): a null or
key-absent `environments` section leaves the nil map (`none`); a
non-mapping document or section is a parse error. -/
def decodeConfig : Yaml → Except String Config
  | Yaml.null => .ok ⟨none⟩
  | Yaml.map fields =>
    if (fields.map Prod.fst).Nodup then
      match fields.lookup "environments" with
      | none => .ok ⟨none⟩
      | some Yaml.null => .ok ⟨none⟩
      | some (Yaml.map es) =>
        if (es.map Prod.fst).Nodup then
          match decodeEnvEntries es with
          | .error e => .error e
          | .ok entries => .ok ⟨some entries⟩
        else .error "mapping key already defined"
      | some _ => .error "cannot unmarshal into map"
    else .error "mapping key already defined"
  | _ => .error "cannot unmarshal into Config"

/-- The YAML data of the default configuration written by
`createDefaultConfig` (src/main.go:89-114), comments stripped: one
environment `glm` with a target and its variable pairs in document
order. -/
def defaultYaml : Yaml :=
  Yaml.map [("environments", Yaml.map [("glm", Yaml.map
    [("target", Yaml.str "claude"),
     ("environment", Yaml.map
       [("CLAUDE_CODE_DISABLE_NONESSENTIAL_TRAFFIC", Yaml.str "1"),
        ("ANTHROPIC_BASE_URL", Yaml.str "https://open.bigmodel.cn/api/anthropic"),
        ("ANTHROPIC_AUTH_TOKEN", Yaml.str "your-glm-api-key"),
        ("ANTHROPIC_MODEL", Yaml.str "glm-4.6"),
        ("ANTHROPIC_SMALL_FAST_MODEL", Yaml.str "glm-4.5-air"),
        ("ANTHROPIC_DEFAULT_SONNET_MODEL", Yaml.str "glm-4.6"),
        ("ANTHROPIC_DEFAULT_OPUS_MODEL", Yaml.str "glm-4.6"),
        ("ANTHROPIC_DEFAULT_HAIKU_MODEL", Yaml.str "glm-4.5-air"),
        ("API_TIMEOUT_MS", Yaml.str "3000000")])])])]

/-- The on-disk state the program touches: the `~/.cs` directory and
the `config.yaml` file inside it (file bytes identified with their
YAML document; the serialisation layer is not modelled, and disk
reads/writes succeed). -/
structure FS where
  dirExists : Bool
  file : Option Yaml

/-- One printed line, by shape (stdout and the fatal log lines). -/
inductive Out where
  | createdNotice
  | editNotice
  | usage
  | availableHeader
  | envName (name : String)
  | loadErrorNote (msg : String)
  | notFoundMsg (name : String)
  | fatalLoad (msg : String)
  | fatalRun
deriving Repr, DecidableEq

/-- Model of `createDefaultConfig` (src/main.go:82-117): `MkdirAll` then write
the default file. -/
def createDefaultConfig (_fs : FS) : FS :=
  { dirExists := true, file := some defaultYaml }

/-- src/main.go:74-76: substitute an empty mapping for a nil one
after a successful parse. -/
def fixNilEnvironments (c : Config) : Config :=
  match c.environments with
  | none => ⟨some []⟩
  | some l => ⟨some l⟩

structure LoadResult where
  result : Except String Config
  fs : FS
  out : List Out

/-- Model of `LoadConfig` (src/main.go:47-79): create the default file when
absent (printing the two notices), then read and parse the file, then
replace a nil environments map by an empty one. -/
def loadConfig (fs : FS) : LoadResult :=
  match fs.file with
  | none =>
    let fs' := createDefaultConfig fs
    match decodeConfig defaultYaml with
    | .error e => ⟨.error e, fs', [Out.createdNotice, Out.editNotice]⟩
    | .ok c => ⟨.ok (fixNilEnvironments c), fs', [Out.createdNotice, Out.editNotice]⟩
  | some y =>
    match decodeConfig y with
    | .error e => ⟨.error e, fs, []⟩
    | .ok c => ⟨.ok (fixNilEnvironments c), fs, []⟩

/-- The names printed by `printAvailableEnvironments`
(src/main.go:197-199); list order stands in for Go's unspecified map
iteration order. -/
def listNames (c : Config) : List String :=
  (c.environments.getD []).map Prod.fst

/-- Model of `cfg.Environments[environment]` (src/main.go:176): exact string
key lookup in the mapping. -/
def lookupEnv (c : Config) (name : String) : Option Environment :=
  (c.environments.getD []).lookup name

/-- Model of `printAvailableEnvironments` (src/main.go:190-200): load the
config; on error print the parenthesised note and return, otherwise
print every environment name. -/
def printAvailableEnvironments (fs : FS) : FS × List Out :=
  match loadConfig fs with
  | ⟨.error e, fs', louts⟩ => (fs', louts ++ [Out.loadErrorNote e])
  | ⟨.ok c, fs', louts⟩ => (fs', louts ++ (listNames c).map Out.envName)

/-- The launcher's validation errors and the launch failure
(src/main.go:120-157). -/
inductive RunError where
  | emptyTarget
  | invalidTarget
  | launchFailed
deriving Repr, DecidableEq

/-- What `Run` hands to `exec.Command`/`cmd.Run`: executable name,
positional arguments, and `cmd.Env` (`none` = field left unset, the
child inherits the parent environment directly). -/
structure LaunchSpec where
  command : String
  args : List String
  env : Option (List (String × String))
deriving Repr, DecidableEq

/-- The pure prefix of `Run` (src/main.go:120-148): validation,
tokenization and environment-block construction, up to the point the
child is started.  `parentEnv` is `os.Environ()` as key/value pairs. -/
def buildLaunch (envConfig : Environment) (parentEnv : List (String × String)) :
    Except RunError LaunchSpec :=
  if envConfig.target = "" then .error .emptyTarget
  else
    match goFields envConfig.target with
    | [] => .error .invalidTarget
    | command :: args =>
      .ok ⟨command, args,
        if envConfig.environment.length > 0 then
          some (parentEnv ++ envConfig.environment)
        else none⟩

/-- Model of `Run` (src/main.go:120-157): build the launch, then run the child;
whether a concrete launch starts and exits successfully is decided by
the `oracle` (the machine). -/
def runEnv (oracle : LaunchSpec → Bool) (envConfig : Environment)
    (parentEnv : List (String × String)) : Except RunError Unit :=
  match buildLaunch envConfig parentEnv with
  | .error e => .error e
  | .ok spec => if oracle spec then .ok () else .error .launchFailed

/-- Key lookup in an environment block where, per the `exec.Cmd.Env`
contract, the last entry for a duplicated key wins. -/
def effectiveEnv (entries : List (String × String)) (k : String) : Option String :=
  entries.reverse.lookup k

/-- The child's actual environment as a key-to-value map: `cmd.Env`
when set, the parent environment otherwise. -/
def childEnv (spec : LaunchSpec) (parentEnv : List (String × String))
    (k : String) : Option String :=
  match spec.env with
  | none => effectiveEnv parentEnv k
  | some l => effectiveEnv l k

/-- How the process terminated. -/
inductive MainExit where
  | usage
  | notFound
  | fatalLoad
  | fatalRun
  | success
deriving Repr, DecidableEq

/-- The exit status of each termination mode: `os.Exit(1)` on the
usage and not-found paths, `log.Fatalf` (status 1) on load and run
failures, status 0 when `Run` returns nil. -/
def exitCode : MainExit → Nat
  | .usage => 1
  | .notFound => 1
  | .fatalLoad => 1
  | .fatalRun => 1
  | .success => 0

structure MainOut where
  exit : MainExit
  fs : FS
  out : List Out
  loadCalls : Nat

/-- Model of `main` (src/main.go:159-188).  `args` is `os.Args[1:]`;
`loadCalls` counts the invocations of `loadConfig` (directly and via
`printAvailableEnvironments`). -/
def mainRun (oracle : LaunchSpec → Bool) (parentEnv : List (String × String))
    (args : List String) (fs : FS) : MainOut :=
  match args with
  | [] =>
    match printAvailableEnvironments fs with
    | (fs', pouts) => ⟨.usage, fs', Out.usage :: Out.availableHeader :: pouts, 1⟩
  | environment :: _ =>
    match loadConfig fs with
    | ⟨.error e, fs', louts⟩ => ⟨.fatalLoad, fs', louts ++ [Out.fatalLoad e], 1⟩
    | ⟨.ok cfg, fs', louts⟩ =>
      match lookupEnv cfg environment with
      | none =>
        match printAvailableEnvironments fs' with
        | (fs'', pouts) =>
          ⟨.notFound, fs'',
           louts ++ Out.notFoundMsg environment :: Out.availableHeader :: pouts, 2⟩
      | some envConfig =>
        match runEnv oracle envConfig parentEnv with
        | .error _ => ⟨.fatalRun, fs', louts ++ [Out.fatalRun], 1⟩
        | .ok _ => ⟨.success, fs', louts, 1⟩

/-- The `glm` environment of the default configuration, as
`LoadConfig` parses it (verified definitionally below). -/
def glmDefaultEnvironment : Environment :=
  ⟨"claude",
   [("CLAUDE_CODE_DISABLE_NONESSENTIAL_TRAFFIC", "1"),
    ("ANTHROPIC_BASE_URL", "https://open.bigmodel.cn/api/anthropic"),
    ("ANTHROPIC_AUTH_TOKEN", "your-glm-api-key"),
    ("ANTHROPIC_MODEL", "glm-4.6"),
    ("ANTHROPIC_SMALL_FAST_MODEL", "glm-4.5-air"),
    ("ANTHROPIC_DEFAULT_SONNET_MODEL", "glm-4.6"),
    ("ANTHROPIC_DEFAULT_OPUS_MODEL", "glm-4.6"),
    ("ANTHROPIC_DEFAULT_HAIKU_MODEL", "glm-4.5-air"),
    ("API_TIMEOUT_MS", "3000000")]⟩

/-- The configuration `LoadConfig` returns after writing the default
file. -/
def glmDefaultConfig : Config :=
  ⟨some [("glm", glmDefaultEnvironment)]⟩

/-! ## Lemmas about the tokenizer -/

theorem splitAtP_ne_nil (p : Char → Bool) (s : List Char) : splitAtP p s ≠ [] := by
  induction s with
  | nil => simp [splitAtP]
  | cons c cs ih =>
    simp only [splitAtP]
    split
    · simp
    · split
      · next heq => exact absurd heq ih
      · simp

theorem splitAtP_cons_exists (p : Char → Bool) (s : List Char) :
    ∃ h t, splitAtP p s = h :: t := by
  cases hcs : splitAtP p s with
  | nil => exact absurd hcs (splitAtP_ne_nil p s)
  | cons a b => exact ⟨a, b, rfl⟩

theorem fieldsAux_eq (p : Char → Bool) (s : List Char) :
    ∀ (cur : List Char) (h : List Char) (t : List (List Char)),
      splitAtP p s = h :: t →
      fieldsAux p cur s =
        (if cur.reverse ++ h = [] then [] else [cur.reverse ++ h]) ++
          t.filter (fun x => !x.isEmpty) := by
  induction s with
  | nil =>
    intro cur h t hs
    simp only [splitAtP] at hs
    obtain ⟨rfl, rfl⟩ : h = [] ∧ t = [] := by
      refine ⟨?_, ?_⟩ <;> injection hs <;> simp_all
    cases cur <;> simp [fieldsAux]
  | cons c cs ih =>
    intro cur h t hs
    simp only [splitAtP] at hs
    obtain ⟨h', t', hsplit⟩ := splitAtP_cons_exists p cs
    by_cases hp : p c
    · rw [if_pos hp, List.cons.injEq] at hs
      obtain ⟨rfl, rfl⟩ := hs
      have ihcur := ih [] h' t' hsplit
      simp only [List.reverse_nil, List.nil_append] at ihcur
      rw [hsplit, List.filter_cons]
      simp only [fieldsAux, if_pos hp]
      cases cur with
      | nil =>
        simp only [List.isEmpty_nil, if_pos rfl, List.reverse_nil, List.append_nil,
          List.nil_append, ihcur]
        cases h' <;> simp
      | cons d ds =>
        simp only [List.isEmpty_cons, Bool.false_eq_true, if_false, ihcur,
          List.append_nil]
        have hne : (d :: ds).reverse ≠ [] := by simp
        rw [if_neg hne]
        cases h' <;> simp
    · rw [if_neg hp, hsplit, List.cons.injEq] at hs
      obtain ⟨rfl, rfl⟩ := hs
      have ihcur := ih (c :: cur) h' t' hsplit
      simp only [fieldsAux, if_neg hp, ihcur, List.reverse_cons, List.append_assoc,
        List.cons_append, List.nil_append]

/-- The tokenizer is exactly: cut at every separator character,
then discard the empty pieces — i.e. splitting on runs of
separators. -/
theorem goFieldsList_eq_splitAtP (p : Char → Bool) (s : List Char) :
    goFieldsList p s = (splitAtP p s).filter (fun x => !x.isEmpty) := by
  obtain ⟨h', t', hsplit⟩ := splitAtP_cons_exists p s
  rw [goFieldsList, fieldsAux_eq p s [] h' t' hsplit, hsplit, List.filter_cons]
  cases h' <;> simp

/-- No piece of the reference split contains a separator character. -/
theorem mem_splitAtP_no_sep (p : Char → Bool) (s : List Char) :
    ∀ t ∈ splitAtP p s, ∀ c ∈ t, p c = false := by
  induction s with
  | nil =>
    intro t ht c hc
    simp only [splitAtP, List.mem_singleton] at ht
    subst ht
    simp at hc
  | cons a as ih =>
    intro t ht c hc
    simp only [splitAtP] at ht
    obtain ⟨h', t', hsplit⟩ := splitAtP_cons_exists p as
    by_cases hp : p a
    · rw [if_pos hp, List.mem_cons] at ht
      rcases ht with rfl | ht
      · simp at hc
      · exact ih t ht c hc
    · rw [if_neg hp, hsplit, List.mem_cons] at ht
      rcases ht with rfl | ht
      · rcases List.mem_cons.mp hc with rfl | hc
        · exact Bool.not_eq_true _ ▸ by simpa using hp
        · exact ih h' (hsplit ▸ List.mem_cons_self h' t') c hc
      · exact ih t (hsplit ▸ List.mem_cons_of_mem h' ht) c hc

/-- All pieces of the reference split are empty exactly when every
character is a separator. -/
theorem splitAtP_all_empty_iff (p : Char → Bool) (s : List Char) :
    (∀ t ∈ splitAtP p s, t = []) ↔ ∀ c ∈ s, p c = true := by
  induction s with
  | nil => simp [splitAtP]
  | cons a as ih =>
    simp only [splitAtP]
    obtain ⟨h', t', hsplit⟩ := splitAtP_cons_exists p as
    by_cases hp : p a
    · rw [if_pos hp]
      simp only [List.mem_cons, List.mem_cons]
      constructor
      · intro H c hc
        rcases hc with rfl | hc
        · exact hp
        · exact ih.mp (fun u hu => H u (Or.inr hu)) c hc
      · intro H u hu
        rcases hu with rfl | hu
        · rfl
        · exact ih.mpr (fun c hc => H c (Or.inr hc)) u hu
    · rw [if_neg hp, hsplit]
      constructor
      · intro H
        exact absurd (H (a :: h') (List.mem_cons_self _ _)) (List.cons_ne_nil a h')
      · intro H
        exact absurd (H a (List.mem_cons_self a as)) hp

/-- The tokenizer yields no token exactly when every character of
the input is a separator (in particular on the empty input). -/
theorem goFieldsList_eq_nil_iff (p : Char → Bool) (s : List Char) :
    goFieldsList p s = [] ↔ ∀ c ∈ s, p c = true := by
  rw [goFieldsList_eq_splitAtP, List.filter_eq_nil_iff, ← splitAtP_all_empty_iff p s]
  constructor
  · intro H t ht
    have := H t ht
    simpa using this
  · intro H t ht
    simp [H t ht]

/-! ## Lemmas about association-list lookup (Go map reads and the
`exec.Cmd.Env` last-entry-wins contract) -/

theorem lookup_append {β : Type} (l₁ l₂ : List (String × β)) (k : String) :
    (l₁ ++ l₂).lookup k = ((l₁.lookup k).orElse (fun _ => l₂.lookup k)) := by
  induction l₁ with
  | nil => simp [List.lookup]
  | cons a l ih =>
    obtain ⟨ka, va⟩ := a
    cases hkk : (k == ka) <;> simp [List.lookup, hkk, ih]

theorem lookup_eq_none_of_not_mem_keys {β : Type} {l : List (String × β)} {k : String}
    (h : k ∉ l.map Prod.fst) : l.lookup k = none := by
  induction l with
  | nil => simp [List.lookup]
  | cons a t ih =>
    obtain ⟨ka, va⟩ := a
    simp only [List.map_cons, List.mem_cons, not_or] at h
    have hkk : (k == ka) = false := by
      simpa using h.1
    simp [List.lookup, hkk, ih h.2]

theorem lookup_eq_none_iff {β : Type} (l : List (String × β)) (k : String) :
    l.lookup k = none ↔ k ∉ l.map Prod.fst := by
  induction l with
  | nil => simp [List.lookup]
  | cons a t ih =>
    obtain ⟨ka, va⟩ := a
    by_cases hk : k = ka
    · subst hk
      simp [List.lookup]
    · have hkk : (k == ka) = false := by simpa using hk
      simp [List.lookup, hkk, ih, hk]

theorem lookup_reverse_of_nodup {β : Type} {l : List (String × β)}
    (h : (l.map Prod.fst).Nodup) (k : String) :
    l.reverse.lookup k = l.lookup k := by
  induction l with
  | nil => simp
  | cons a t ih =>
    obtain ⟨ka, va⟩ := a
    simp only [List.map_cons, List.nodup_cons] at h
    rw [List.reverse_cons, lookup_append]
    by_cases hk : k = ka
    · subst hk
      have h1 : t.lookup k = none := lookup_eq_none_of_not_mem_keys h.1
      have h2 : t.reverse.lookup k = none := by
        apply lookup_eq_none_of_not_mem_keys
        simpa using h.1
      simp [List.lookup, h1, h2]
    · have hkk : (k == ka) = false := by simpa using hk
      rw [ih h.2]
      cases hlk : t.lookup k <;> simp [List.lookup, hkk, hlk]

/-- Pair membership determines lookup in a distinct-key association
list (the Go map read). -/
theorem lookup_eq_some_iff_mem {β : Type} {l : List (String × β)}
    (h : (l.map Prod.fst).Nodup) (k : String) (v : β) :
    l.lookup k = some v ↔ (k, v) ∈ l := by
  induction l with
  | nil => simp [List.lookup]
  | cons a t ih =>
    obtain ⟨ka, va⟩ := a
    simp only [List.map_cons, List.nodup_cons] at h
    by_cases hk : k = ka
    · subst hk
      have hnone : t.lookup k = none := lookup_eq_none_of_not_mem_keys h.1
      simp only [List.lookup, beq_self_eq_true, List.mem_cons]
      constructor
      · intro hv
        exact Or.inl (by simpa using hv.symm)
      · intro hv
        rcases hv with hv | hv
        · simp [Prod.ext_iff] at hv
          simp [hv]
        · exact absurd (List.mem_map_of_mem Prod.fst hv) h.1
    · have hkk : (k == ka) = false := by simpa using hk
      simp only [List.lookup, hkk, List.mem_cons]
      rw [ih h.2]
      constructor
      · exact Or.inr
      · intro hv
        rcases hv with hv | hv
        · exact absurd (congrArg Prod.fst hv) (by simpa using hk)
        · exact hv

/-! ## Lemmas about decoding and loading -/

/-- Decoding the `environments` entries preserves the names, in
order. -/
theorem decodeEnvEntries_keys (es : List (String × Yaml)) :
    ∀ entries : List (String × Environment),
      decodeEnvEntries es = .ok entries →
      entries.map Prod.fst = es.map Prod.fst := by
  induction es with
  | nil =>
    intro entries h
    simp only [decodeEnvEntries] at h
    injection h with h
    subst h
    rfl
  | cons a rest ih =>
    intro entries h
    obtain ⟨k, v⟩ := a
    simp only [decodeEnvEntries] at h
    cases hv : decodeEnvironment v with
    | error e => rw [hv] at h; exact absurd h (by simp)
    | ok env =>
      rw [hv] at h
      cases hr : decodeEnvEntries rest with
      | error e => rw [hr] at h; exact absurd h (by simp)
      | ok r =>
        rw [hr] at h
        injection h with h
        subst h
        simp [ih r hr]

theorem fixNil_environments_isSome (c : Config) :
    ∃ l, (fixNilEnvironments c).environments = some l := by
  obtain ⟨env⟩ := c
  cases env <;> simp [fixNilEnvironments]

/-- Loading with an absent file: the directory and the default
file are created, the two notices are printed, and the parsed default
configuration is returned. -/
theorem loadConfig_absent (d : Bool) :
    loadConfig ⟨d, none⟩ =
      ⟨.ok glmDefaultConfig, ⟨true, some defaultYaml⟩,
       [Out.createdNotice, Out.editNotice]⟩ := rfl

theorem loadConfig_present_ok (fs : FS) (y : Yaml) (c : Config)
    (hf : fs.file = some y) (hd : decodeConfig y = .ok c) :
    loadConfig fs = ⟨.ok (fixNilEnvironments c), fs, []⟩ := by
  simp only [loadConfig, hf, hd]

theorem loadConfig_present_err (fs : FS) (y : Yaml) (e : String)
    (hf : fs.file = some y) (hd : decodeConfig y = .error e) :
    loadConfig fs = ⟨.error e, fs, []⟩ := by
  simp only [loadConfig, hf, hd]

/-- Every successfully loaded configuration has a non-null
environments mapping. -/
theorem loadConfig_ok_nonnull (fs : FS) (cfg : Config)
    (h : (loadConfig fs).result = .ok cfg) :
    ∃ l, cfg.environments = some l := by
  cases hf : fs.file with
  | none =>
    obtain ⟨d, f⟩ := fs
    cases hf
    rw [loadConfig_absent] at h
    injection h with h
    subst h
    exact ⟨_, rfl⟩
  | some y =>
    cases hd : decodeConfig y with
    | error e => rw [loadConfig_present_err fs y e hf hd] at h; exact absurd h (by simp)
    | ok c =>
      rw [loadConfig_present_ok fs y c hf hd] at h
      injection h with h
      subst h
      exact fixNil_environments_isSome c

theorem decodeConfig_env_absent (entries : List (String × Yaml))
    (hnd : (entries.map Prod.fst).Nodup)
    (hlk : entries.lookup "environments" = none) :
    decodeConfig (Yaml.map entries) = .ok ⟨none⟩ := by
  simp [decodeConfig, hnd, hlk]

theorem decodeConfig_env_null (entries : List (String × Yaml))
    (hnd : (entries.map Prod.fst).Nodup)
    (hlk : entries.lookup "environments" = some Yaml.null) :
    decodeConfig (Yaml.map entries) = .ok ⟨none⟩ := by
  simp [decodeConfig, hnd, hlk]

theorem decodeConfig_env_empty (entries : List (String × Yaml))
    (hnd : (entries.map Prod.fst).Nodup)
    (hlk : entries.lookup "environments" = some (Yaml.map [])) :
    decodeConfig (Yaml.map entries) = .ok ⟨some []⟩ := by
  simp [decodeConfig, hnd, hlk, decodeEnvEntries]

theorem decodeConfig_env_entries (es : List (String × Yaml))
    (entries : List (String × Environment))
    (hnd : (es.map Prod.fst).Nodup)
    (hdec : decodeEnvEntries es = .ok entries) :
    decodeConfig (Yaml.map [("environments", Yaml.map es)]) = .ok ⟨some entries⟩ := by
  simp [decodeConfig, hnd, hdec, List.lookup]

/-- Appending an overlay with distinct keys to an environment block:
under the last-entry-wins contract, overlay values win and every
other key keeps its inherited value. -/
theorem effectiveEnv_append_overlay (parentEnv o : List (String × String))
    (hnd : (o.map Prod.fst).Nodup) (k : String) :
    effectiveEnv (parentEnv ++ o) k =
      match o.lookup k with
      | some v => some v
      | none => effectiveEnv parentEnv k := by
  unfold effectiveEnv
  rw [List.reverse_append, lookup_append, lookup_reverse_of_nodup hnd]
  cases o.lookup k <;> simp

/-! ## The claims -/

/-- C2: `Run` validates the target in a fixed order: the empty-string
target fails with `emptyTarget` before tokenization; a non-empty
target that tokenizes to zero tokens — equivalently, one made of
whitespace only — fails with the distinct error kind `invalidTarget`;
and every target with at least one token passes validation and
reaches the launch. -/
theorem run_target_validation (envConfig : Environment)
    (parentEnv : List (String × String)) :
    (envConfig.target = "" →
       buildLaunch envConfig parentEnv = .error RunError.emptyTarget) ∧
    (envConfig.target ≠ "" → goFields envConfig.target = [] →
       buildLaunch envConfig parentEnv = .error RunError.invalidTarget) ∧
    (goFields envConfig.target = [] ↔
       ∀ c ∈ envConfig.target.data, isGoSpace c = true) ∧
    (goFields envConfig.target ≠ [] →
       ∃ spec, buildLaunch envConfig parentEnv = .ok spec) ∧
    RunError.emptyTarget ≠ RunError.invalidTarget := by
  refine ⟨?_, ?_, ?_, ?_, by simp⟩
  · intro h
    simp [buildLaunch, h]
  · intro hne hnil
    simp [buildLaunch, hne, hnil]
  · rw [goFields, List.map_eq_nil_iff]
    exact goFieldsList_eq_nil_iff isGoSpace _
  · intro hne
    have h0 : envConfig.target ≠ "" := by
      intro h0
      apply hne
      rw [goFields, h0]
      rfl
    cases hcons : goFields envConfig.target with
    | nil => exact absurd hcons hne
    | cons c args =>
      exact ⟨⟨c, args,
        if envConfig.environment.length > 0 then
          some (parentEnv ++ envConfig.environment) else none⟩,
        by simp [buildLaunch, h0, hcons]⟩

/-- Witness for C2 at the spec's own examples. -/
theorem run_target_validation_witness :
    buildLaunch ⟨"", []⟩ [] = .error RunError.emptyTarget ∧
    buildLaunch ⟨"   ", []⟩ [] = .error RunError.invalidTarget ∧
    ∃ spec, buildLaunch ⟨"echo hello world", []⟩ [] = .ok spec :=
  ⟨(run_target_validation ⟨"", []⟩ []).1 rfl,
   (run_target_validation ⟨"   ", []⟩ []).2.1 (by decide) (by decide),
   (run_target_validation ⟨"echo hello world", []⟩ []).2.2.2.1 (by decide)⟩

/-- C8: for every target with at least one token, `Run` tokenizes by
splitting on runs of whitespace (the nonempty pieces of the
character-wise split), uses the first token as the executable name
and passes the remaining tokens verbatim and in order as positional
arguments; every token is nonempty and contains no whitespace. -/
theorem run_tokenization (envConfig : Environment)
    (parentEnv : List (String × String)) (c : String) (args : List String)
    (h : goFields envConfig.target = c :: args) :
    (∃ envBlock, buildLaunch envConfig parentEnv = .ok ⟨c, args, envBlock⟩) ∧
    (∀ s : List Char,
        goFieldsList isGoSpace s =
          (splitAtP isGoSpace s).filter (fun x => !x.isEmpty)) ∧
    (∀ t ∈ goFieldsList isGoSpace envConfig.target.data,
        t ≠ [] ∧ ∀ ch ∈ t, isGoSpace ch = false) := by
  refine ⟨?_, goFieldsList_eq_splitAtP isGoSpace, ?_⟩
  · have h0 : envConfig.target ≠ "" := by
      intro h0
      rw [goFields, h0] at h
      exact absurd h.symm (List.cons_ne_nil c args)
    exact ⟨if envConfig.environment.length > 0 then
        some (parentEnv ++ envConfig.environment) else none,
      by simp [buildLaunch, h0, h]⟩
  · intro t ht
    rw [goFieldsList_eq_splitAtP] at ht
    refine ⟨?_, fun ch hch =>
      mem_splitAtP_no_sep isGoSpace _ t (List.mem_of_mem_filter ht) ch hch⟩
    have := List.of_mem_filter ht
    simpa using this

/-- Witness for C8 on a concrete multi-token target. -/
theorem run_tokenization_witness :
    goFields "node server.js --port 80" = ["node", "server.js", "--port", "80"] ∧
    ∃ envBlock, buildLaunch ⟨"node server.js --port 80", []⟩ [] =
      .ok ⟨"node", ["server.js", "--port", "80"], envBlock⟩ :=
  ⟨by decide,
   (run_tokenization ⟨"node server.js --port 80", []⟩ [] "node"
      ["server.js", "--port", "80"] (by decide)).1⟩

/-- C1: when the configured variable mapping is non-empty, `Run` sets
`cmd.Env` to the parent environment with every configured entry
appended, so (by the last-entry-wins contract of `exec.Cmd.Env`) the
child's effective environment is the full inherited environment with
each configured entry added or overwritten, the configured value
winning on key collision; when the mapping is empty, `cmd.Env` is
left unset and the child inherits the parent environment unmodified,
no overlay step being performed. -/
theorem run_env_overlay (envConfig : Environment)
    (parentEnv : List (String × String)) (spec : LaunchSpec)
    (hnd : (envConfig.environment.map Prod.fst).Nodup)
    (hok : buildLaunch envConfig parentEnv = .ok spec) :
    (envConfig.environment ≠ [] →
       spec.env = some (parentEnv ++ envConfig.environment) ∧
       ∀ k, childEnv spec parentEnv k =
         match envConfig.environment.lookup k with
         | some v => some v
         | none => effectiveEnv parentEnv k) ∧
    (envConfig.environment = [] →
       spec.env = none ∧
       ∀ k, childEnv spec parentEnv k = effectiveEnv parentEnv k) := by
  by_cases h0 : envConfig.target = ""
  · rw [buildLaunch, if_pos h0] at hok
    exact absurd hok (by simp)
  · rw [buildLaunch, if_neg h0] at hok
    cases hfields : goFields envConfig.target with
    | nil =>
      rw [hfields] at hok
      exact absurd hok (by simp)
    | cons c args =>
      rw [hfields] at hok
      injection hok with hok
      subst hok
      constructor
      · intro hne
        have hlen : envConfig.environment.length > 0 := by
          cases henv : envConfig.environment with
          | nil => exact absurd henv hne
          | cons a l => simp [henv]
        refine ⟨by simp [hlen], fun k => ?_⟩
        simp only [childEnv, hlen, if_pos]
        exact effectiveEnv_append_overlay parentEnv envConfig.environment hnd k
      · intro hempty
        refine ⟨by simp [hempty], fun k => ?_⟩
        simp [childEnv, hempty]

/-- Witness for C1: the overlay value wins on the colliding key `K`,
the inherited value survives on `A`. -/
theorem run_env_overlay_witness :
    childEnv ⟨"echo", [], some [("A", "1"), ("K", "old"), ("K", "v")]⟩
      [("A", "1"), ("K", "old")] "K" = some "v" ∧
    childEnv ⟨"echo", [], some [("A", "1"), ("K", "old"), ("K", "v")]⟩
      [("A", "1"), ("K", "old")] "A" = some "1" := by
  have h := run_env_overlay ⟨"echo", [("K", "v")]⟩ [("A", "1"), ("K", "old")]
    ⟨"echo", [], some [("A", "1"), ("K", "old"), ("K", "v")]⟩ (by decide) rfl
  obtain ⟨hcons, -⟩ := h
  obtain ⟨-, hval⟩ := hcons (by decide)
  exact ⟨hval "K", hval "A"⟩

/-- C3 (counterexample): the `glm` environment of the default
configuration written on first run carries nine variable pairs, not
eight as claimed. -/
theorem default_config_counterexample :
    ((loadConfig ⟨false, none⟩).result.toOption.bind
        (fun cfg => lookupEnv cfg "glm")).map
      (fun e => e.environment.length) = some 9 ∧ (9 : Nat) ≠ 8 :=
  ⟨rfl, by decide⟩

/-- C3 (amended: nine variable pairs, not eight): the default
configuration written on first run defines exactly one environment,
named `glm`, with a target command and exactly nine key/value
variable pairs; whenever the config file is missing, `LoadConfig`
creates it and the returned configuration contains the key `glm`. -/
theorem default_config_on_first_run (fs : FS) (habs : fs.file = none) :
    (loadConfig fs).fs.file = some defaultYaml ∧
    (loadConfig fs).fs.dirExists = true ∧
    (loadConfig fs).result = .ok glmDefaultConfig ∧
    listNames glmDefaultConfig = ["glm"] ∧
    lookupEnv glmDefaultConfig "glm" = some glmDefaultEnvironment ∧
    glmDefaultEnvironment.target = "claude" ∧
    glmDefaultEnvironment.environment.length = 9 := by
  obtain ⟨d, f⟩ := fs
  have hf : f = none := habs
  subst hf
  rw [loadConfig_absent]
  exact ⟨rfl, rfl, rfl, rfl, rfl, rfl, rfl⟩

/-- Witness for the amended C3 on the empty filesystem. -/
theorem default_config_on_first_run_witness :
    (loadConfig ⟨false, none⟩).fs.file = some defaultYaml ∧
    (loadConfig ⟨false, none⟩).fs.dirExists = true ∧
    (loadConfig ⟨false, none⟩).result = .ok glmDefaultConfig ∧
    listNames glmDefaultConfig = ["glm"] ∧
    lookupEnv glmDefaultConfig "glm" = some glmDefaultEnvironment ∧
    glmDefaultEnvironment.target = "claude" ∧
    glmDefaultEnvironment.environment.length = 9 :=
  default_config_on_first_run ⟨false, none⟩ rfl

/-- C4: every successfully loaded configuration has a non-null
environments mapping, and on content whose `environments` section is
absent, null or empty, `LoadConfig` returns the non-null empty
mapping. -/
theorem load_environments_nonnull :
    (∀ (fs : FS) (cfg : Config), (loadConfig fs).result = .ok cfg →
        ∃ l, cfg.environments = some l) ∧
    (∀ (d : Bool) (entries : List (String × Yaml)),
        (entries.map Prod.fst).Nodup →
        entries.lookup "environments" = none →
        (loadConfig ⟨d, some (Yaml.map entries)⟩).result = .ok ⟨some []⟩) ∧
    (∀ (d : Bool) (entries : List (String × Yaml)),
        (entries.map Prod.fst).Nodup →
        entries.lookup "environments" = some Yaml.null →
        (loadConfig ⟨d, some (Yaml.map entries)⟩).result = .ok ⟨some []⟩) ∧
    (∀ (d : Bool) (entries : List (String × Yaml)),
        (entries.map Prod.fst).Nodup →
        entries.lookup "environments" = some (Yaml.map []) →
        (loadConfig ⟨d, some (Yaml.map entries)⟩).result = .ok ⟨some []⟩) := by
  refine ⟨loadConfig_ok_nonnull, ?_, ?_, ?_⟩ <;>
    · intro d entries hnd hlk
      rw [loadConfig_present_ok _ _ _ rfl
        (by first
          | exact decodeConfig_env_absent entries hnd hlk
          | exact decodeConfig_env_null entries hnd hlk
          | exact decodeConfig_env_empty entries hnd hlk)]
      rfl

/-- Witness for C4 on concrete absent/null/empty sections. -/
theorem load_environments_nonnull_witness :
    (∃ l, glmDefaultConfig.environments = some l) ∧
    (loadConfig ⟨true, some (Yaml.map [])⟩).result = .ok ⟨some []⟩ ∧
    (loadConfig ⟨true, some (Yaml.map [("environments", Yaml.null)])⟩).result =
      .ok ⟨some []⟩ ∧
    (loadConfig ⟨true, some (Yaml.map [("environments", Yaml.map [])])⟩).result =
      .ok ⟨some []⟩ :=
  ⟨load_environments_nonnull.1 ⟨false, none⟩ glmDefaultConfig (by rw [loadConfig_absent]),
   load_environments_nonnull.2.1 true [] (by simp) rfl,
   load_environments_nonnull.2.2.1 true [("environments", Yaml.null)] (by simp) rfl,
   load_environments_nonnull.2.2.2 true [("environments", Yaml.map [])] (by simp) rfl⟩

/-- C5: when the config file exists at the resolved path, `LoadConfig`
performs no write — the filesystem state is returned unchanged and no
creation notice is printed; the default-creation write path runs
exactly when the file is absent. -/
theorem load_no_write_when_present :
    (∀ (fs : FS) (y : Yaml), fs.file = some y →
        (loadConfig fs).fs = fs ∧ (loadConfig fs).out = []) ∧
    (∀ fs : FS, fs.file = none →
        (loadConfig fs).fs = createDefaultConfig fs ∧
        (loadConfig fs).fs.file = some defaultYaml) := by
  constructor
  · intro fs y hf
    cases hd : decodeConfig y with
    | error e => rw [loadConfig_present_err fs y e hf hd]; exact ⟨rfl, rfl⟩
    | ok c => rw [loadConfig_present_ok fs y c hf hd]; exact ⟨rfl, rfl⟩
  · intro fs habs
    obtain ⟨d, f⟩ := fs
    have hf : f = none := habs
    subst hf
    rw [loadConfig_absent]
    exact ⟨rfl, rfl⟩

/-- Witness for C5: an existing file (the default one) is not touched;
an absent file is created. -/
theorem load_no_write_when_present_witness :
    ((loadConfig ⟨true, some defaultYaml⟩).fs = ⟨true, some defaultYaml⟩ ∧
     (loadConfig ⟨true, some defaultYaml⟩).out = []) ∧
    ((loadConfig ⟨false, none⟩).fs = createDefaultConfig ⟨false, none⟩ ∧
     (loadConfig ⟨false, none⟩).fs.file = some defaultYaml) :=
  ⟨load_no_write_when_present.1 ⟨true, some defaultYaml⟩ defaultYaml rfl,
   load_no_write_when_present.2 ⟨false, none⟩ rfl⟩

/-- C7: `lookup` finds an environment exactly when the name is an
exact, case-sensitive key of the mapping (and reports not-found
otherwise), and loading valid content with N named environments
yields exactly N entries whose names `listNames` returns. -/
theorem lookup_and_listnames (cfg : Config) (name : String)
    (l : List (String × Environment))
    (hc : cfg.environments = some l) (hnd : (l.map Prod.fst).Nodup) :
    ((∀ e, lookupEnv cfg name = some e ↔ (name, e) ∈ l) ∧
     (lookupEnv cfg name = none ↔ name ∉ l.map Prod.fst)) ∧
    (∀ (d : Bool) (es : List (String × Yaml)) (entries : List (String × Environment)),
        (es.map Prod.fst).Nodup →
        decodeEnvEntries es = .ok entries →
        (loadConfig ⟨d, some (Yaml.map [("environments", Yaml.map es)])⟩).result =
          .ok ⟨some entries⟩ ∧
        entries.length = es.length ∧
        listNames ⟨some entries⟩ = es.map Prod.fst) := by
  constructor
  · constructor
    · intro e
      simp only [lookupEnv, hc, Option.getD_some]
      exact lookup_eq_some_iff_mem hnd name e
    · simp only [lookupEnv, hc, Option.getD_some]
      exact lookup_eq_none_iff l name
  · intro d es entries hnd2 hdec
    rw [loadConfig_present_ok _ _ _ rfl (decodeConfig_env_entries es entries hnd2 hdec)]
    have hkeys := decodeEnvEntries_keys es entries hdec
    refine ⟨rfl, ?_, ?_⟩
    · have := congrArg List.length hkeys
      simpa using this
    · simp [listNames, hkeys]

/-- Witness for C7 on the spec's two-environment scenario. -/
theorem lookup_and_listnames_witness :
    (lookupEnv ⟨some [("testenv", ⟨"echo hello", [("TEST_VAR", "test_value")]⟩),
        ("another", ⟨"pwd", [("PATH", "/custom/path")]⟩)]⟩ "testenv" =
      some ⟨"echo hello", [("TEST_VAR", "test_value")]⟩) ∧
    (lookupEnv ⟨some [("testenv", ⟨"echo hello", [("TEST_VAR", "test_value")]⟩),
        ("another", ⟨"pwd", [("PATH", "/custom/path")]⟩)]⟩ "TestEnv" = none) ∧
    (loadConfig ⟨true, some (Yaml.map [("environments", Yaml.map
        [("testenv", Yaml.map [("target", Yaml.str "echo hello"),
           ("environment", Yaml.map [("TEST_VAR", Yaml.str "test_value")])]),
         ("another", Yaml.map [("target", Yaml.str "pwd"),
           ("environment", Yaml.map [("PATH", Yaml.str "/custom/path")])])])])⟩).result =
      .ok ⟨some [("testenv", ⟨"echo hello", [("TEST_VAR", "test_value")]⟩),
        ("another", ⟨"pwd", [("PATH", "/custom/path")]⟩)]⟩ ∧
    ([("testenv", (⟨"echo hello", [("TEST_VAR", "test_value")]⟩ : Environment)),
      ("another", ⟨"pwd", [("PATH", "/custom/path")]⟩)].length = 2) ∧
    listNames ⟨some [("testenv", ⟨"echo hello", [("TEST_VAR", "test_value")]⟩),
      ("another", ⟨"pwd", [("PATH", "/custom/path")]⟩)]⟩ = ["testenv", "another"] := by
  have h := lookup_and_listnames
    ⟨some [("testenv", ⟨"echo hello", [("TEST_VAR", "test_value")]⟩),
      ("another", ⟨"pwd", [("PATH", "/custom/path")]⟩)]⟩ "testenv"
    [("testenv", ⟨"echo hello", [("TEST_VAR", "test_value")]⟩),
      ("another", ⟨"pwd", [("PATH", "/custom/path")]⟩)] rfl (by decide)
  have h2 := lookup_and_listnames
    ⟨some [("testenv", ⟨"echo hello", [("TEST_VAR", "test_value")]⟩),
      ("another", ⟨"pwd", [("PATH", "/custom/path")]⟩)]⟩ "TestEnv"
    [("testenv", ⟨"echo hello", [("TEST_VAR", "test_value")]⟩),
      ("another", ⟨"pwd", [("PATH", "/custom/path")]⟩)] rfl (by decide)
  refine ⟨(h.1.1 _).mpr (by simp), (h2.1.2).mpr (by decide), ?_⟩
  have h3 := h.2 true
    [("testenv", Yaml.map [("target", Yaml.str "echo hello"),
       ("environment", Yaml.map [("TEST_VAR", Yaml.str "test_value")])]),
     ("another", Yaml.map [("target", Yaml.str "pwd"),
       ("environment", Yaml.map [("PATH", Yaml.str "/custom/path")])])]
    [("testenv", ⟨"echo hello", [("TEST_VAR", "test_value")]⟩),
     ("another", ⟨"pwd", [("PATH", "/custom/path")]⟩)] (by decide) rfl
  exact ⟨h3.1, h3.2.1, h3.2.2⟩

/-! ## Unfolding lemmas for `main` -/

theorem mainRun_nil (oracle : LaunchSpec → Bool)
    (parentEnv : List (String × String)) (fs : FS) :
    mainRun oracle parentEnv [] fs =
      ⟨MainExit.usage, (printAvailableEnvironments fs).1,
       Out.usage :: Out.availableHeader :: (printAvailableEnvironments fs).2, 1⟩ :=
  rfl

theorem mainRun_load_err (oracle : LaunchSpec → Bool)
    (parentEnv : List (String × String)) (name : String) (more : List String)
    (fs fs' : FS) (e : String) (louts : List Out)
    (hlc : loadConfig fs = ⟨.error e, fs', louts⟩) :
    mainRun oracle parentEnv (name :: more) fs =
      ⟨MainExit.fatalLoad, fs', louts ++ [Out.fatalLoad e], 1⟩ := by
  simp only [mainRun, hlc]

theorem mainRun_notFound (oracle : LaunchSpec → Bool)
    (parentEnv : List (String × String)) (name : String) (more : List String)
    (fs fs' : FS) (cfg : Config) (louts : List Out)
    (hlc : loadConfig fs = ⟨.ok cfg, fs', louts⟩)
    (hnf : lookupEnv cfg name = none) :
    mainRun oracle parentEnv (name :: more) fs =
      ⟨MainExit.notFound, (printAvailableEnvironments fs').1,
       louts ++ Out.notFoundMsg name :: Out.availableHeader ::
         (printAvailableEnvironments fs').2, 2⟩ := by
  simp only [mainRun, hlc, hnf]

theorem mainRun_found_ok (oracle : LaunchSpec → Bool)
    (parentEnv : List (String × String)) (name : String) (more : List String)
    (fs fs' : FS) (cfg : Config) (envC : Environment) (louts : List Out)
    (hlc : loadConfig fs = ⟨.ok cfg, fs', louts⟩)
    (hf : lookupEnv cfg name = some envC)
    (hr : runEnv oracle envC parentEnv = .ok ()) :
    mainRun oracle parentEnv (name :: more) fs =
      ⟨MainExit.success, fs', louts, 1⟩ := by
  simp only [mainRun, hlc, hf, hr]

theorem mainRun_found_err (oracle : LaunchSpec → Bool)
    (parentEnv : List (String × String)) (name : String) (more : List String)
    (fs fs' : FS) (cfg : Config) (envC : Environment) (err : RunError)
    (louts : List Out)
    (hlc : loadConfig fs = ⟨.ok cfg, fs', louts⟩)
    (hf : lookupEnv cfg name = some envC)
    (hr : runEnv oracle envC parentEnv = .error err) :
    mainRun oracle parentEnv (name :: more) fs =
      ⟨MainExit.fatalRun, fs', louts ++ [Out.fatalRun], 1⟩ := by
  simp only [mainRun, hlc, hf, hr]

/-- C6: the CLI exits 1 on zero arguments (after printing usage and
the availability listing), exits 1 when the named environment is not
found (after the not-found message and the listing), terminates
fatally with a non-zero status when loading fails or `Run` returns an
error, and exits 0 when `Run` succeeds. -/
theorem main_exit_behavior (oracle : LaunchSpec → Bool)
    (parentEnv : List (String × String)) (fs : FS) :
    ((mainRun oracle parentEnv [] fs).exit = MainExit.usage ∧
     exitCode (mainRun oracle parentEnv [] fs).exit = 1 ∧
     ∃ rest, (mainRun oracle parentEnv [] fs).out =
       Out.usage :: Out.availableHeader :: rest) ∧
    (∀ (name : String) (more : List String) (e : String),
       (loadConfig fs).result = .error e →
       (mainRun oracle parentEnv (name :: more) fs).exit = MainExit.fatalLoad ∧
       exitCode (mainRun oracle parentEnv (name :: more) fs).exit ≠ 0) ∧
    (∀ (name : String) (more : List String) (cfg : Config),
       (loadConfig fs).result = .ok cfg →
       lookupEnv cfg name = none →
       (mainRun oracle parentEnv (name :: more) fs).exit = MainExit.notFound ∧
       exitCode (mainRun oracle parentEnv (name :: more) fs).exit = 1 ∧
       ∃ pre post, (mainRun oracle parentEnv (name :: more) fs).out =
         pre ++ Out.notFoundMsg name :: Out.availableHeader :: post) ∧
    (∀ (name : String) (more : List String) (cfg : Config) (envC : Environment),
       (loadConfig fs).result = .ok cfg →
       lookupEnv cfg name = some envC →
       runEnv oracle envC parentEnv = .ok () →
       (mainRun oracle parentEnv (name :: more) fs).exit = MainExit.success ∧
       exitCode (mainRun oracle parentEnv (name :: more) fs).exit = 0) ∧
    (∀ (name : String) (more : List String) (cfg : Config) (envC : Environment)
       (err : RunError),
       (loadConfig fs).result = .ok cfg →
       lookupEnv cfg name = some envC →
       runEnv oracle envC parentEnv = .error err →
       (mainRun oracle parentEnv (name :: more) fs).exit = MainExit.fatalRun ∧
       exitCode (mainRun oracle parentEnv (name :: more) fs).exit ≠ 0) := by
  refine ⟨⟨rfl, rfl, ⟨_, rfl⟩⟩, ?_, ?_, ?_, ?_⟩
  · intro name more e hl
    rcases hlc : loadConfig fs with ⟨res, fs', louts⟩
    have hres : res = .error e := by rw [hlc] at hl; exact hl
    subst hres
    rw [mainRun_load_err oracle parentEnv name more fs fs' e louts hlc]
    exact ⟨rfl, by simp [exitCode]⟩
  · intro name more cfg hl hnf
    rcases hlc : loadConfig fs with ⟨res, fs', louts⟩
    have hres : res = .ok cfg := by rw [hlc] at hl; exact hl
    subst hres
    rw [mainRun_notFound oracle parentEnv name more fs fs' cfg louts hlc hnf]
    exact ⟨rfl, rfl, ⟨louts, (printAvailableEnvironments fs').2, rfl⟩⟩
  · intro name more cfg envC hl hf hr
    rcases hlc : loadConfig fs with ⟨res, fs', louts⟩
    have hres : res = .ok cfg := by rw [hlc] at hl; exact hl
    subst hres
    rw [mainRun_found_ok oracle parentEnv name more fs fs' cfg envC louts hlc hf hr]
    exact ⟨rfl, rfl⟩
  · intro name more cfg envC err hl hf hr
    rcases hlc : loadConfig fs with ⟨res, fs', louts⟩
    have hres : res = .ok cfg := by rw [hlc] at hl; exact hl
    subst hres
    rw [mainRun_found_err oracle parentEnv name more fs fs' cfg envC err louts hlc hf hr]
    exact ⟨rfl, by simp [exitCode]⟩

/-- Witness for C6 exercising all five exit paths concretely. -/
theorem main_exit_behavior_witness :
    ((mainRun (fun _ => true) [] [] ⟨true, some defaultYaml⟩).exit = MainExit.usage ∧
     exitCode (mainRun (fun _ => true) [] [] ⟨true, some defaultYaml⟩).exit = 1) ∧
    ((mainRun (fun _ => true) [] ["x"] ⟨true, some (Yaml.seq [])⟩).exit =
       MainExit.fatalLoad) ∧
    ((mainRun (fun _ => true) [] ["nope"] ⟨true, some defaultYaml⟩).exit =
       MainExit.notFound) ∧
    ((mainRun (fun _ => true) [] ["glm"] ⟨true, some defaultYaml⟩).exit =
       MainExit.success ∧
     exitCode (mainRun (fun _ => true) [] ["glm"] ⟨true, some defaultYaml⟩).exit = 0) ∧
    ((mainRun (fun _ => false) [] ["glm"] ⟨true, some defaultYaml⟩).exit =
       MainExit.fatalRun) := by
  have h1 := main_exit_behavior (fun _ => true) [] ⟨true, some defaultYaml⟩
  have h2 := main_exit_behavior (fun _ => true) [] ⟨true, some (Yaml.seq [])⟩
  have h3 := main_exit_behavior (fun _ => false) [] ⟨true, some defaultYaml⟩
  refine ⟨⟨h1.1.1, h1.1.2.1⟩, ?_, ?_, ?_, ?_⟩
  · exact (h2.2.1 "x" [] "cannot unmarshal into Config" rfl).1
  · exact (h1.2.2.1 "nope" [] glmDefaultConfig rfl rfl).1
  · have := h1.2.2.2.1 "glm" [] glmDefaultConfig glmDefaultEnvironment rfl rfl rfl
    exact ⟨this.1, this.2⟩
  · exact (h3.2.2.2.2 "glm" [] glmDefaultConfig glmDefaultEnvironment
      RunError.launchFailed rfl rfl rfl).1

/-- C9: listing-only invocations — zero arguments, or a name that is
not found — go through the same `LoadConfig` path (twice in the
not-found case), so when the file is absent even they create the
config directory and the default file on disk. -/
theorem listing_creates_default (oracle : LaunchSpec → Bool)
    (parentEnv : List (String × String)) (fs : FS) (habs : fs.file = none) :
    ((mainRun oracle parentEnv [] fs).fs.file = some defaultYaml ∧
     (mainRun oracle parentEnv [] fs).fs.dirExists = true ∧
     (mainRun oracle parentEnv [] fs).loadCalls = 1) ∧
    (∀ name : String, name ≠ "glm" →
       (mainRun oracle parentEnv [name] fs).exit = MainExit.notFound ∧
       (mainRun oracle parentEnv [name] fs).fs.file = some defaultYaml ∧
       (mainRun oracle parentEnv [name] fs).fs.dirExists = true ∧
       (mainRun oracle parentEnv [name] fs).loadCalls = 2) := by
  obtain ⟨d, f⟩ := fs
  have hf : f = none := habs
  subst hf
  constructor
  · exact ⟨rfl, rfl, rfl⟩
  · intro name hne
    have hbeq : (name == "glm") = false := by simpa using hne
    have hnf : lookupEnv glmDefaultConfig name = none := by
      simp [lookupEnv, glmDefaultConfig, List.lookup, hbeq]
    rw [mainRun_notFound oracle parentEnv name [] ⟨d, none⟩ ⟨true, some defaultYaml⟩
      glmDefaultConfig [Out.createdNotice, Out.editNotice] (loadConfig_absent d) hnf]
    exact ⟨rfl, rfl, rfl, rfl⟩

/-- Witness for C9: a first run with no file, with zero arguments and
with an unknown name. -/
theorem listing_creates_default_witness :
    ((mainRun (fun _ => true) [] [] ⟨false, none⟩).fs.file = some defaultYaml ∧
     (mainRun (fun _ => true) [] [] ⟨false, none⟩).fs.dirExists = true ∧
     (mainRun (fun _ => true) [] [] ⟨false, none⟩).loadCalls = 1) ∧
    ((mainRun (fun _ => true) [] ["nope"] ⟨false, none⟩).exit = MainExit.notFound ∧
     (mainRun (fun _ => true) [] ["nope"] ⟨false, none⟩).fs.file = some defaultYaml ∧
     (mainRun (fun _ => true) [] ["nope"] ⟨false, none⟩).fs.dirExists = true ∧
     (mainRun (fun _ => true) [] ["nope"] ⟨false, none⟩).loadCalls = 2) := by
  have h := listing_creates_default (fun _ => true) [] ⟨false, none⟩ rfl
  exact ⟨h.1, h.2 "nope" (by decide)⟩

/-- C10: when the configuration cannot be parsed while printing the
availability listing, the load error is swallowed rather than
propagated: the parenthesised note is printed in place of the names,
the listing function returns normally, and the zero-argument
invocation still exits with status 1 through the usage path, not
through fatal termination. -/
theorem listing_swallows_load_error (oracle : LaunchSpec → Bool)
    (parentEnv : List (String × String)) (fs : FS) (y : Yaml) (e : String)
    (hf : fs.file = some y) (he : decodeConfig y = .error e) :
    printAvailableEnvironments fs = (fs, [Out.loadErrorNote e]) ∧
    mainRun oracle parentEnv [] fs =
      ⟨MainExit.usage, fs,
       [Out.usage, Out.availableHeader, Out.loadErrorNote e], 1⟩ ∧
    (mainRun oracle parentEnv [] fs).exit ≠ MainExit.fatalLoad ∧
    (mainRun oracle parentEnv [] fs).exit ≠ MainExit.fatalRun ∧
    exitCode (mainRun oracle parentEnv [] fs).exit = 1 := by
  have hpa : printAvailableEnvironments fs = (fs, [Out.loadErrorNote e]) := by
    simp only [printAvailableEnvironments, loadConfig_present_err fs y e hf he,
      List.nil_append]
  have hmain : mainRun oracle parentEnv [] fs =
      ⟨MainExit.usage, fs,
       [Out.usage, Out.availableHeader, Out.loadErrorNote e], 1⟩ := by
    rw [mainRun_nil, hpa]
  refine ⟨hpa, hmain, ?_, ?_, ?_⟩
  · rw [hmain]; simp
  · rw [hmain]; simp
  · rw [hmain]; rfl

/-- Witness for C10 on a sequence document where a mapping is
expected. -/
theorem listing_swallows_load_error_witness :
    printAvailableEnvironments ⟨true, some (Yaml.seq [])⟩ =
      (⟨true, some (Yaml.seq [])⟩,
       [Out.loadErrorNote "cannot unmarshal into Config"]) ∧
    (mainRun (fun _ => true) [] [] ⟨true, some (Yaml.seq [])⟩).exit =
      MainExit.usage := by
  have h := listing_swallows_load_error (fun _ => true) []
    ⟨true, some (Yaml.seq [])⟩ (Yaml.seq []) "cannot unmarshal into Config" rfl rfl
  exact ⟨h.1, by rw [h.2.1]⟩

end CcSwitcher
